import Mathlib

set_option maxHeartbeats 1000000

/-!
Shallow embedding of the user-service core from `internal/api/api.go`:
the domain service (`core`, package `user`) and the transport adapter
(`implementation`, package `api`).  The storage backend (repo/cache
package) is not part of the given sources, so it is modelled from the
spec's Storage Port contract, instrumented with a call trace and with
per-operation fault injection (so that timeouts and opaque failures can
be expressed).  The request deadline itself is real time and is not
modelled; a deadline expiry is represented by the storage call failing
with the timeout sentinel, exactly as the rest of the code observes it.
-/

/-- The sole entity: a user record (`models.User`). -/
structure User where
  name : String
  password : String
deriving DecidableEq, Repr

/-- The error taxonomy.  The source spreads its sentinels over several
packages (`userPkg.ErrValidation`, `errorsPkg`/`localPkg`
`ErrUserNotFound`, `ErrUserAlreadyExists`, `ErrTimeout`); the transport
matches them with `errors.Is`, and following the spec's uniform taxonomy
the sentinels of the two storage-error packages are identified.
`other` is the opaque unclassified failure class. -/
inductive Err where
  | validation
  | alreadyExists
  | notFound
  | timeout
  | other (msg : String)
deriving DecidableEq, Repr

/-- Which storage-port operation a call in the trace was. -/
inductive SCall where
  | get
  | create
  | update
  | delete
  | list
deriving DecidableEq, Repr

/-- A storage call that writes (create/update/delete). -/
def SCall.isMutating : SCall → Bool
  | .create => true
  | .update => true
  | .delete => true
  | _ => false

/-- One log record.  `debug` is the domain service's
`logger.Debug(op, args...)` record; the arguments are rendered as the
strings the logger receives (for `Debug("Create", user)` the whole user,
password included, is passed).  `transport` is the adapter's
`log.Printf("user [%s] <op>: %v", name, err)` record. -/
inductive LogRec where
  | debug (op : String) (args : List String)
  | transport (op : String) (name : String) (e : Err)
deriving DecidableEq, Repr

/-- Whether a record was written at the transport boundary. -/
def LogRec.isTransport : LogRec → Bool
  | .transport _ _ _ => true
  | _ => false

/-- The transport-boundary part of a log. -/
def transportLog (l : List LogRec) : List LogRec :=
  l.filter fun r => r.isTransport

/-- Fault injection for the Storage Port: an injected failure makes the
corresponding storage call fail with that error (a `timeout` models the
deadline elapsing during the call). -/
structure Faults where
  onGet : Option Err
  onCreate : Option Err
  onUpdate : Option Err
  onDelete : Option Err
  onList : Option Err
deriving DecidableEq, Repr

/-- A fully functioning storage backend. -/
def noFaults : Faults := ⟨none, none, none, none, none⟩

/-- Lookup by name in the storage's record list. -/
def findUser (s : List User) (n : String) : Option User :=
  s.find? fun u => u.name == n

/-- Insertion into a name-sorted list (ascending). -/
def insertByName (u : User) : List User → List User
  | [] => [u]
  | v :: vs => if u.name ≤ v.name then u :: v :: vs else v :: insertByName u vs

/-- Sort records by name ascending. -/
def sortByName : List User → List User
  | [] => []
  | u :: us => insertByName u (sortByName us)

namespace repo

/-- Modelled from the spec: the Storage Port's
`get(name) -> User | fails{NotFound, Timeout, Other}`, an in-memory
view keyed by name.  Injected faults stand for Timeout/Other failures. -/
def UserGet (f : Faults) (s : List User) (n : String) : Except Err User :=
  match f.onGet with
  | some e => .error e
  | none =>
    match findUser s n with
    | some u => .ok u
    | none => .error .notFound

/-- Modelled from the spec: `create(User) -> fails{Timeout, Other}`.
The port itself enforces no uniqueness (the spec's §4.1 rationale), so a
successful create simply appends the record. -/
def UserCreate (f : Faults) (s : List User) (u : User) : Except Err (List User) :=
  match f.onCreate with
  | some e => .error e
  | none => .ok (s ++ [u])

/-- Modelled from the spec: `update(User) -> fails{Timeout, Other}`;
a successful update rewrites the record with the matching name. -/
def UserUpdate (f : Faults) (s : List User) (u : User) : Except Err (List User) :=
  match f.onUpdate with
  | some e => .error e
  | none => .ok (s.map fun v => if v.name == u.name then u else v)

/-- Modelled from the spec: `delete(name) -> fails{Timeout, Other}`;
a successful delete removes the records with that name. -/
def UserDelete (f : Faults) (s : List User) (n : String) : Except Err (List User) :=
  match f.onDelete with
  | some e => .error e
  | none => .ok (s.filter fun v => !(v.name == n))

/-- Modelled from the spec: `list(order, limit, offset) -> []User |
fails{Timeout, Other}`; `order` selects ascending/descending name
order, `offset`/`limit` bound a page (limit 0 meaning unbounded). -/
def UserList (f : Faults) (s : List User) (order : Bool) (limit offset : Nat) :
    Except Err (List User) :=
  match f.onList with
  | some e => .error e
  | none =>
    let sorted := if order then sortByName s else (sortByName s).reverse
    let page := sorted.drop offset
    .ok (if limit = 0 then page else page.take limit)

end repo

/-- Outcome of one domain-service operation: the log it wrote, the
storage calls it performed in order, the storage state afterwards, and
the value or error it returned. -/
structure CoreOut (α : Type) where
  log : List LogRec
  calls : List SCall
  store : List User
  result : Except Err α
deriving Repr

namespace core

/-- `core.Create` from the source: debug-log the user, look the name up;
a successful lookup returns `ErrUserAlreadyExists`; a lookup failure
other than `ErrUserNotFound` is returned unchanged; otherwise the
storage create runs and its result is propagated. -/
def create (f : Faults) (s : List User) (u : User) : CoreOut Unit :=
  let dbg := [LogRec.debug "Create" [u.name, u.password]]
  match repo.UserGet f s u.name with
  | .ok _ => ⟨dbg, [.get], s, .error .alreadyExists⟩
  | .error e =>
    if e ≠ .notFound then
      ⟨dbg, [.get], s, .error e⟩
    else
      match repo.UserCreate f s u with
      | .ok s1 => ⟨dbg, [.get, .create], s1, .ok ()⟩
      | .error e1 => ⟨dbg, [.get, .create], s, .error e1⟩

/-- `core.Update` from the source: debug-log the user, look the name up;
any lookup failure is returned unchanged; otherwise the storage update
runs and its result is propagated. -/
def update (f : Faults) (s : List User) (u : User) : CoreOut Unit :=
  let dbg := [LogRec.debug "Update" [u.name, u.password]]
  match repo.UserGet f s u.name with
  | .error e => ⟨dbg, [.get], s, .error e⟩
  | .ok _ =>
    match repo.UserUpdate f s u with
    | .ok s1 => ⟨dbg, [.get, .update], s1, .ok ()⟩
    | .error e1 => ⟨dbg, [.get, .update], s, .error e1⟩

/-- `core.Delete` from the source: debug-log the name, look it up; any
lookup failure is returned unchanged; otherwise the storage delete runs
and its result is propagated. -/
def delete (f : Faults) (s : List User) (n : String) : CoreOut Unit :=
  let dbg := [LogRec.debug "Delete" [n]]
  match repo.UserGet f s n with
  | .error e => ⟨dbg, [.get], s, .error e⟩
  | .ok _ =>
    match repo.UserDelete f s n with
    | .ok s1 => ⟨dbg, [.get, .delete], s1, .ok ()⟩
    | .error e1 => ⟨dbg, [.get, .delete], s, .error e1⟩

/-- `core.Get` from the source: debug-log the name and delegate to the
storage lookup. -/
def get (f : Faults) (s : List User) (n : String) : CoreOut User :=
  ⟨[LogRec.debug "Get" [n]], [.get], s, repo.UserGet f s n⟩

/-- `core.List` from the source: debug-log the arguments and delegate to
the storage list. -/
def list (f : Faults) (s : List User) (order : Bool) (limit offset : Nat) :
    CoreOut (List User) :=
  ⟨[LogRec.debug "List" [toString order, toString limit, toString offset]],
    [.list], s, repo.UserList f s order limit offset⟩

end core

/-- Transport status codes used by the adapter. -/
inductive Code where
  | ok
  | invalidArgument
  | alreadyExists
  | deadlineExceeded
  | internal
deriving DecidableEq, Repr

/-- Outcome of one transport-adapter operation: the full log (core debug
records followed by the boundary failure record, if any), the response
payload (`none` models the Go `nil` response returned with an error
status), the status code, and the underlying storage state and trace. -/
structure TransOut (α : Type) where
  log : List LogRec
  resp : Option α
  code : Code
  store : List User
  calls : List SCall
deriving Repr

namespace implementation

/-- `implementation.UserCreate` from the source: call the domain create;
on failure, log once and map Validation → invalid-argument,
AlreadyExists → already-exists, Timeout → deadline-exceeded, anything
else (NotFound included: its switch has no NotFound case) → internal. -/
def UserCreate (f : Faults) (s : List User) (name password : String) : TransOut Unit :=
  let c := core.create f s ⟨name, password⟩
  match c.result with
  | .ok _ => ⟨c.log, some (), Code.ok, c.store, c.calls⟩
  | .error e =>
    let lg := c.log ++ [LogRec.transport "create" name e]
    match e with
    | .validation => ⟨lg, none, Code.invalidArgument, c.store, c.calls⟩
    | .alreadyExists => ⟨lg, none, Code.alreadyExists, c.store, c.calls⟩
    | .timeout => ⟨lg, none, Code.deadlineExceeded, c.store, c.calls⟩
    | _ => ⟨lg, none, Code.internal, c.store, c.calls⟩

/-- `implementation.UserUpdate` from the source: on failure, log once
and map Validation/NotFound → invalid-argument, Timeout →
deadline-exceeded, anything else → internal. -/
def UserUpdate (f : Faults) (s : List User) (name password : String) : TransOut Unit :=
  let c := core.update f s ⟨name, password⟩
  match c.result with
  | .ok _ => ⟨c.log, some (), Code.ok, c.store, c.calls⟩
  | .error e =>
    let lg := c.log ++ [LogRec.transport "update" name e]
    match e with
    | .validation => ⟨lg, none, Code.invalidArgument, c.store, c.calls⟩
    | .notFound => ⟨lg, none, Code.invalidArgument, c.store, c.calls⟩
    | .timeout => ⟨lg, none, Code.deadlineExceeded, c.store, c.calls⟩
    | _ => ⟨lg, none, Code.internal, c.store, c.calls⟩

/-- `implementation.UserDelete` from the source: same mapping as
update. -/
def UserDelete (f : Faults) (s : List User) (name : String) : TransOut Unit :=
  let c := core.delete f s name
  match c.result with
  | .ok _ => ⟨c.log, some (), Code.ok, c.store, c.calls⟩
  | .error e =>
    let lg := c.log ++ [LogRec.transport "delete" name e]
    match e with
    | .validation => ⟨lg, none, Code.invalidArgument, c.store, c.calls⟩
    | .notFound => ⟨lg, none, Code.invalidArgument, c.store, c.calls⟩
    | .timeout => ⟨lg, none, Code.deadlineExceeded, c.store, c.calls⟩
    | _ => ⟨lg, none, Code.internal, c.store, c.calls⟩

/-- `implementation.UserGet` from the source: same mapping as update;
on success the response carries the user's name and password. -/
def UserGet (f : Faults) (s : List User) (name : String) : TransOut User :=
  let c := core.get f s name
  match c.result with
  | .ok u => ⟨c.log, some u, Code.ok, c.store, c.calls⟩
  | .error e =>
    let lg := c.log ++ [LogRec.transport "get" name e]
    match e with
    | .validation => ⟨lg, none, Code.invalidArgument, c.store, c.calls⟩
    | .notFound => ⟨lg, none, Code.invalidArgument, c.store, c.calls⟩
    | .timeout => ⟨lg, none, Code.deadlineExceeded, c.store, c.calls⟩
    | _ => ⟨lg, none, Code.internal, c.store, c.calls⟩

/-- `implementation.UserList` from the source: call the domain list
(the request carries no arguments; ascending full listing); only a
Timeout is checked, returning a present-but-empty users payload with
deadline-exceeded and no log record; any other error is ignored and the
nil users slice becomes an empty success response. -/
def UserList (f : Faults) (s : List User) : TransOut (List User) :=
  let c := core.list f s true 0 0
  match c.result with
  | .error .timeout => ⟨c.log, some [], Code.deadlineExceeded, c.store, c.calls⟩
  | .error _ => ⟨c.log, some [], Code.ok, c.store, c.calls⟩
  | .ok us => ⟨c.log, some us, Code.ok, c.store, c.calls⟩

end implementation

/-- One domain-service invocation, for reasoning about sequences of
operations against a functioning storage backend. -/
inductive Op where
  | createOp (u : User)
  | updateOp (u : User)
  | deleteOp (n : String)
  | getOp (n : String)
  | listOp

/-- Storage state after one domain operation (no injected faults). -/
def applyOp (s : List User) : Op → List User
  | .createOp u => (core.create noFaults s u).store
  | .updateOp u => (core.update noFaults s u).store
  | .deleteOp n => (core.delete noFaults s n).store
  | .getOp n => (core.get noFaults s n).store
  | .listOp => (core.list noFaults s true 0 0).store

/-- Storage state after a sequence of domain operations. -/
def runOps (s : List User) : List Op → List User
  | [] => s
  | o :: os => runOps (applyOp s o) os

/-- The names present in a storage state. -/
def namesOf (s : List User) : List String := s.map fun u => u.name

/-! Helper lemmas about the modelled storage and the domain service. -/

lemma findUser_cons (v : User) (vs : List User) (n : String) :
    findUser (v :: vs) n = if v.name == n then some v else findUser vs n := by
  unfold findUser
  by_cases h : (v.name == n) = true
  · simp [h]
  · simp [List.find?_cons_of_neg _ h, h]

lemma findUser_append_of_none {s : List User} {n : String}
    (h : findUser s n = none) (t : List User) :
    findUser (s ++ t) n = findUser t n := by
  induction s with
  | nil => rfl
  | cons v vs ih =>
    rw [findUser_cons] at h
    rw [List.cons_append, findUser_cons]
    by_cases hb : (v.name == n) = true
    · simp [hb] at h
    · simp only [hb, if_false] at h ⊢
      simp only [Bool.not_eq_true] at hb
      simp [hb]
      exact ih h

lemma not_mem_namesOf_of_findUser_none {s : List User} {n : String}
    (h : findUser s n = none) : n ∉ namesOf s := by
  intro hmem
  unfold findUser at h
  rw [List.find?_eq_none] at h
  rcases List.mem_map.mp hmem with ⟨u, hu, hname⟩
  exact h u hu (by simp [hname])

lemma create_log (f : Faults) (s : List User) (u : User) :
    (core.create f s u).log = [LogRec.debug "Create" [u.name, u.password]] := by
  unfold core.create
  split
  · rfl
  · split
    · rfl
    · split <;> rfl

lemma update_log (f : Faults) (s : List User) (u : User) :
    (core.update f s u).log = [LogRec.debug "Update" [u.name, u.password]] := by
  unfold core.update
  split
  · rfl
  · split <;> rfl

lemma delete_log (f : Faults) (s : List User) (n : String) :
    (core.delete f s n).log = [LogRec.debug "Delete" [n]] := by
  unfold core.delete
  split
  · rfl
  · split <;> rfl

/-! Theorems for the claims. -/

/-- C1: the spec requires Create with an empty name to fail fast with
`Validation` before any storage call; the domain service performs no
such check, so `Create("", p)` performs the lookup and the create
(two storage calls), stores a record with an empty name, and returns
success. -/
theorem C1_empty_name_create_hits_storage :
    (implementation.UserCreate noFaults [] "" "p").calls = [SCall.get, SCall.create] ∧
    (implementation.UserCreate noFaults [] "" "p").code = Code.ok ∧
    (implementation.UserCreate noFaults [] "" "p").store = [⟨"", "p"⟩] :=
  ⟨rfl, rfl, rfl⟩

/-- C4: Create's protocol around the existence lookup: a successful
lookup yields `AlreadyExists`; a lookup failure other than `NotFound`
is propagated unchanged with no further storage call; on `NotFound` the
storage create is invoked and its outcome (success or error) is
propagated. -/
theorem C4_create_lookup_protocol (f : Faults) (s : List User) (u : User) :
    ((∃ v, repo.UserGet f s u.name = .ok v) →
      (core.create f s u).result = .error Err.alreadyExists) ∧
    (∀ e, repo.UserGet f s u.name = .error e → e ≠ Err.notFound →
      (core.create f s u).result = .error e ∧
      (core.create f s u).calls = [SCall.get]) ∧
    (repo.UserGet f s u.name = .error Err.notFound →
      (core.create f s u).calls = [SCall.get, SCall.create] ∧
      (∀ s1, repo.UserCreate f s u = .ok s1 →
        (core.create f s u).result = .ok () ∧ (core.create f s u).store = s1) ∧
      (∀ e1, repo.UserCreate f s u = .error e1 →
        (core.create f s u).result = .error e1)) := by
  refine ⟨?_, ?_, ?_⟩
  · rintro ⟨v, hv⟩
    simp [core.create, hv]
  · intro e he hne
    simp [core.create, he, hne]
  · intro he
    refine ⟨?_, ?_, ?_⟩
    · cases hc : repo.UserCreate f s u <;> simp [core.create, he, hc]
    · intro s1 hc
      simp [core.create, he, hc]
    · intro e1 hc
      simp [core.create, he, hc]

/-- Witness for C4 at a concrete input: on empty storage the lookup
misses, the storage create succeeds, and Create returns success having
stored the record. -/
theorem C4_witness :
    (core.create noFaults [] ⟨"a", "p"⟩).result = .ok () ∧
    (core.create noFaults [] ⟨"a", "p"⟩).store = [⟨"a", "p"⟩] :=
  ((C4_create_lookup_protocol noFaults [] ⟨"a", "p"⟩).2.2 rfl).2.1 [⟨"a", "p"⟩] rfl

/-- C10: when Create fails out of its existence check (the lookup found
a record, or the lookup failed with something other than `NotFound`),
no mutating storage call has been made and the storage state is
untouched. -/
theorem C10_create_check_frame (f : Faults) (s : List User) (u : User)
    (h : (∃ v, repo.UserGet f s u.name = .ok v) ∨
         (∃ e, repo.UserGet f s u.name = .error e ∧ e ≠ Err.notFound)) :
    (core.create f s u).store = s ∧
    (core.create f s u).calls = [SCall.get] ∧
    (core.create f s u).calls.filter (fun c => c.isMutating) = [] := by
  rcases h with ⟨v, hv⟩ | ⟨e, he, hne⟩
  · simp [core.create, hv, SCall.isMutating]
  · simp [core.create, he, hne, SCall.isMutating]

/-- Witness for C10 at a concrete input: Create on a name that is
already stored leaves the store unchanged and performs only the get. -/
theorem C10_witness :
    (core.create noFaults [⟨"a", "p"⟩] ⟨"a", "q"⟩).store = [⟨"a", "p"⟩] ∧
    (core.create noFaults [⟨"a", "p"⟩] ⟨"a", "q"⟩).calls = [SCall.get] ∧
    (core.create noFaults [⟨"a", "p"⟩] ⟨"a", "q"⟩).calls.filter (fun c => c.isMutating) = [] :=
  C10_create_check_frame noFaults [⟨"a", "p"⟩] ⟨"a", "q"⟩ (Or.inl ⟨⟨"a", "p"⟩, rfl⟩)

/-- C9 counterexample: the claim says no storage failure ever results in
a successful Domain Service return, but Create's existence probe is
designed to fail with `NotFound` and the operation then succeeds: on
empty storage the probe fails with `NotFound` while Create returns ok. -/
theorem C9_counterexample_probe_notfound :
    repo.UserGet noFaults [] "a" = .error Err.notFound ∧
    (core.create noFaults [] ⟨"a", "p"⟩).result = .ok () :=
  ⟨rfl, rfl⟩

/-- C9 (amended): every error the Domain Service returns is either the
synthesized `AlreadyExists` or exactly an error produced by one of this
invocation's storage calls, unchanged; and an operation only succeeds
when its final storage call succeeded (the single storage error that
does not surface is `NotFound` from Create's existence probe, which by
design lets the create proceed). -/
theorem C9_no_swallow_amended (f : Faults) (s : List User) (u : User) (n : String)
    (order : Bool) (limit offset : Nat) :
    (∀ e, (core.create f s u).result = .error e →
      e = Err.alreadyExists ∨ repo.UserGet f s u.name = .error e ∨
        repo.UserCreate f s u = .error e) ∧
    ((core.create f s u).result = .ok () → ∃ s1, repo.UserCreate f s u = .ok s1) ∧
    (∀ e, (core.update f s u).result = .error e →
      repo.UserGet f s u.name = .error e ∨ repo.UserUpdate f s u = .error e) ∧
    ((core.update f s u).result = .ok () → ∃ s1, repo.UserUpdate f s u = .ok s1) ∧
    (∀ e, (core.delete f s n).result = .error e →
      repo.UserGet f s n = .error e ∨ repo.UserDelete f s n = .error e) ∧
    ((core.delete f s n).result = .ok () → ∃ s1, repo.UserDelete f s n = .ok s1) ∧
    ((core.get f s n).result = repo.UserGet f s n) ∧
    ((core.list f s order limit offset).result = repo.UserList f s order limit offset) := by
  refine ⟨?_, ?_, ?_, ?_, ?_, ?_, rfl, rfl⟩
  · intro e he
    unfold core.create at he
    cases hg : repo.UserGet f s u.name with
    | ok v => rw [hg] at he; simp at he; exact Or.inl he.symm
    | error e0 =>
      rw [hg] at he
      by_cases hne : e0 = Err.notFound
      · subst hne
        simp only [ne_eq, not_true_eq_false, if_false] at he
        cases hc : repo.UserCreate f s u with
        | ok s1 => rw [hc] at he; simp at he
        | error e1 => rw [hc] at he; simp at he; subst he; exact Or.inr (Or.inr rfl)
      · simp only [ne_eq, hne, not_false_eq_true, if_true] at he
        simp at he
        subst he
        exact Or.inr (Or.inl rfl)
  · intro hok
    unfold core.create at hok
    cases hg : repo.UserGet f s u.name with
    | ok v => rw [hg] at hok; simp at hok
    | error e0 =>
      rw [hg] at hok
      by_cases hne : e0 = Err.notFound
      · subst hne
        simp only [ne_eq, not_true_eq_false, if_false] at hok
        cases hc : repo.UserCreate f s u with
        | ok s1 => exact ⟨s1, rfl⟩
        | error e1 => rw [hc] at hok; simp at hok
      · simp only [ne_eq, hne, not_false_eq_true, if_true] at hok
        simp at hok
  · intro e he
    unfold core.update at he
    cases hg : repo.UserGet f s u.name with
    | error e0 => rw [hg] at he; simp at he; subst he; exact Or.inl rfl
    | ok v =>
      rw [hg] at he
      cases hc : repo.UserUpdate f s u with
      | ok s1 => rw [hc] at he; simp at he
      | error e1 => rw [hc] at he; simp at he; subst he; exact Or.inr rfl
  · intro hok
    unfold core.update at hok
    cases hg : repo.UserGet f s u.name with
    | error e0 => rw [hg] at hok; simp at hok
    | ok v =>
      rw [hg] at hok
      cases hc : repo.UserUpdate f s u with
      | ok s1 => exact ⟨s1, rfl⟩
      | error e1 => rw [hc] at hok; simp at hok
  · intro e he
    unfold core.delete at he
    cases hg : repo.UserGet f s n with
    | error e0 => rw [hg] at he; simp at he; subst he; exact Or.inl rfl
    | ok v =>
      rw [hg] at he
      cases hc : repo.UserDelete f s n with
      | ok s1 => rw [hc] at he; simp at he
      | error e1 => rw [hc] at he; simp at he; subst he; exact Or.inr rfl
  · intro hok
    unfold core.delete at hok
    cases hg : repo.UserGet f s n with
    | error e0 => rw [hg] at hok; simp at hok
    | ok v =>
      rw [hg] at hok
      cases hc : repo.UserDelete f s n with
      | ok s1 => exact ⟨s1, rfl⟩
      | error e1 => rw [hc] at hok; simp at hok

/-- Witness for C9 (amended) at a concrete input: Update on empty
storage fails with `NotFound`, and that error is traced back to one of
the invocation's storage calls. -/
theorem C9_witness :
    repo.UserGet noFaults [] "b" = .error Err.notFound ∨
      repo.UserUpdate noFaults [] ⟨"b", "p"⟩ = .error Err.notFound :=
  (C9_no_swallow_amended noFaults [] ⟨"b", "p"⟩ "b" true 0 0).2.2.1 Err.notFound rfl

/-- C7: when the storage list call fails with `Timeout`, the transport
List operation returns a present-but-empty users payload together with
the deadline-exceeded status. -/
theorem C7_list_timeout_empty_payload (f : Faults) (s : List User)
    (h : repo.UserList f s true 0 0 = .error Err.timeout) :
    (implementation.UserList f s).resp = some [] ∧
    (implementation.UserList f s).code = Code.deadlineExceeded := by
  unfold implementation.UserList core.list
  simp [h]

/-- Witness for C7 at a concrete input: a storage List timeout on a
one-record store yields the empty payload and deadline-exceeded. -/
theorem C7_witness :
    (implementation.UserList ⟨none, none, none, none, some Err.timeout⟩ [⟨"a", "b"⟩]).resp = some [] ∧
    (implementation.UserList ⟨none, none, none, none, some Err.timeout⟩ [⟨"a", "b"⟩]).code =
      Code.deadlineExceeded :=
  C7_list_timeout_empty_payload ⟨none, none, none, none, some Err.timeout⟩ [⟨"a", "b"⟩] rfl

lemma transportLog_UserCreate (f : Faults) (s : List User) (n p : String) :
    transportLog (implementation.UserCreate f s n p).log =
      match (core.create f s ⟨n, p⟩).result with
      | .ok _ => []
      | .error e => [LogRec.transport "create" n e] := by
  unfold implementation.UserCreate
  cases h : (core.create f s ⟨n, p⟩).result with
  | ok v =>
    simp only [h]
    rw [create_log]
    rfl
  | error e =>
    simp only [h]
    cases e <;>
      simp [create_log, transportLog, List.filter_append, LogRec.isTransport]

lemma transportLog_UserUpdate (f : Faults) (s : List User) (n p : String) :
    transportLog (implementation.UserUpdate f s n p).log =
      match (core.update f s ⟨n, p⟩).result with
      | .ok _ => []
      | .error e => [LogRec.transport "update" n e] := by
  unfold implementation.UserUpdate
  cases h : (core.update f s ⟨n, p⟩).result with
  | ok v =>
    simp only [h]
    rw [update_log]
    rfl
  | error e =>
    simp only [h]
    cases e <;>
      simp [update_log, transportLog, List.filter_append, LogRec.isTransport]

lemma transportLog_UserDelete (f : Faults) (s : List User) (n : String) :
    transportLog (implementation.UserDelete f s n).log =
      match (core.delete f s n).result with
      | .ok _ => []
      | .error e => [LogRec.transport "delete" n e] := by
  unfold implementation.UserDelete
  cases h : (core.delete f s n).result with
  | ok v =>
    simp only [h]
    rw [delete_log]
    rfl
  | error e =>
    simp only [h]
    cases e <;>
      simp [delete_log, transportLog, List.filter_append, LogRec.isTransport]

lemma transportLog_UserGet (f : Faults) (s : List User) (n : String) :
    transportLog (implementation.UserGet f s n).log =
      match (core.get f s n).result with
      | .ok _ => []
      | .error e => [LogRec.transport "get" n e] := by
  unfold implementation.UserGet
  cases h : (core.get f s n).result with
  | ok v =>
    simp only [h]
    rfl
  | error e =>
    simp only [h]
    cases e <;>
      simp [core.get, transportLog, List.filter_append, LogRec.isTransport]

lemma transportLog_UserList (f : Faults) (s : List User) :
    transportLog (implementation.UserList f s).log = [] := by
  unfold implementation.UserList
  cases h : (core.list f s true 0 0).result with
  | ok us => simp only [h]; rfl
  | error e => cases e <;> simp only [h] <;> rfl

lemma create_result_password_indep (f : Faults) (s : List User) (n p1 p2 : String) :
    (core.create f s ⟨n, p1⟩).result = (core.create f s ⟨n, p2⟩).result := by
  unfold core.create
  cases hg : repo.UserGet f s n with
  | ok v => rfl
  | error e =>
    by_cases hne : e = Err.notFound
    · subst hne
      simp only [ne_eq, not_true_eq_false, if_false]
      unfold repo.UserCreate
      cases f.onCreate <;> rfl
    · simp only [ne_eq, hne, not_false_eq_true, if_true]

lemma update_result_password_indep (f : Faults) (s : List User) (n p1 p2 : String) :
    (core.update f s ⟨n, p1⟩).result = (core.update f s ⟨n, p2⟩).result := by
  unfold core.update
  cases hg : repo.UserGet f s n with
  | error e => rfl
  | ok v =>
    unfold repo.UserUpdate
    cases f.onUpdate <;> rfl

/-- C2 counterexample: the per-operation debug record passes the whole
user to the logger, password included, so two Create invocations that
differ only in the password produce different log output. -/
theorem C2_counterexample_password_in_debug_log :
    (core.create noFaults [] ⟨"a", "x"⟩).log ≠ (core.create noFaults [] ⟨"a", "y"⟩).log := by
  decide

/-- C2 (amended): the transport-boundary failure log never depends on
the password — two invocations differing only in the password produce
identical boundary records, and every boundary record is built from the
operation name, the subject name and the error alone; the domain
service's debug record, however, does receive the full user (password
included) for Create and Update. -/
theorem C2_transport_log_password_independent (f : Faults) (s : List User)
    (n p1 p2 : String) :
    transportLog (implementation.UserCreate f s n p1).log =
      transportLog (implementation.UserCreate f s n p2).log ∧
    transportLog (implementation.UserUpdate f s n p1).log =
      transportLog (implementation.UserUpdate f s n p2).log ∧
    (∀ r ∈ transportLog (implementation.UserCreate f s n p1).log,
      ∃ e, r = LogRec.transport "create" n e) ∧
    (∀ r ∈ transportLog (implementation.UserUpdate f s n p1).log,
      ∃ e, r = LogRec.transport "update" n e) := by
  refine ⟨?_, ?_, ?_, ?_⟩
  · rw [transportLog_UserCreate, transportLog_UserCreate,
      create_result_password_indep f s n p1 p2]
  · rw [transportLog_UserUpdate, transportLog_UserUpdate,
      update_result_password_indep f s n p1 p2]
  · intro r hr
    rw [transportLog_UserCreate] at hr
    cases h : (core.create f s ⟨n, p1⟩).result with
    | ok v => rw [h] at hr; simp at hr
    | error e =>
      rw [h] at hr
      simp only [List.mem_singleton] at hr
      exact ⟨e, hr⟩
  · intro r hr
    rw [transportLog_UserUpdate] at hr
    cases h : (core.update f s ⟨n, p1⟩).result with
    | ok v => rw [h] at hr; simp at hr
    | error e =>
      rw [h] at hr
      simp only [List.mem_singleton] at hr
      exact ⟨e, hr⟩

/-- Witness for C2 (amended) at a concrete input: a Create that fails
with a storage timeout writes one boundary record, which is built from
the operation name, the subject name and the error. -/
theorem C2_witness :
    ∃ e, LogRec.transport "create" "a" Err.timeout = LogRec.transport "create" "a" e :=
  (C2_transport_log_password_independent ⟨some Err.timeout, none, none, none, none⟩ [] "a" "x" "y").2.2.1
    (LogRec.transport "create" "a" Err.timeout) (by decide)

/-- C8 counterexample: a failing List invocation produces no transport
log record at all — here a storage timeout yields deadline-exceeded yet
an empty boundary log. -/
theorem C8_counterexample_failing_list_logs_nothing :
    (implementation.UserList ⟨none, none, none, none, some Err.timeout⟩ []).code =
      Code.deadlineExceeded ∧
    transportLog (implementation.UserList ⟨none, none, none, none, some Err.timeout⟩ []).log = [] := by
  constructor
  · rfl
  · decide

/-- C8 (amended): for Create, Update, Delete and Get, every failing
invocation produces exactly one transport-boundary log record, and that
record carries the operation name and the subject name; List writes no
boundary record at all, even when it fails. -/
theorem C8_failure_logged_once_amended (f : Faults) (s : List User) (n p : String) :
    ((implementation.UserCreate f s n p).code ≠ Code.ok →
      ∃ e, transportLog (implementation.UserCreate f s n p).log =
        [LogRec.transport "create" n e]) ∧
    ((implementation.UserUpdate f s n p).code ≠ Code.ok →
      ∃ e, transportLog (implementation.UserUpdate f s n p).log =
        [LogRec.transport "update" n e]) ∧
    ((implementation.UserDelete f s n).code ≠ Code.ok →
      ∃ e, transportLog (implementation.UserDelete f s n).log =
        [LogRec.transport "delete" n e]) ∧
    ((implementation.UserGet f s n).code ≠ Code.ok →
      ∃ e, transportLog (implementation.UserGet f s n).log =
        [LogRec.transport "get" n e]) ∧
    transportLog (implementation.UserList f s).log = [] := by
  refine ⟨?_, ?_, ?_, ?_, transportLog_UserList f s⟩
  · intro hne
    cases h : (core.create f s ⟨n, p⟩).result with
    | ok v => exact absurd (by simp [implementation.UserCreate, h]) hne
    | error e =>
      refine ⟨e, ?_⟩
      rw [transportLog_UserCreate, h]
  · intro hne
    cases h : (core.update f s ⟨n, p⟩).result with
    | ok v => exact absurd (by simp [implementation.UserUpdate, h]) hne
    | error e =>
      refine ⟨e, ?_⟩
      rw [transportLog_UserUpdate, h]
  · intro hne
    cases h : (core.delete f s n).result with
    | ok v => exact absurd (by simp [implementation.UserDelete, h]) hne
    | error e =>
      refine ⟨e, ?_⟩
      rw [transportLog_UserDelete, h]
  · intro hne
    cases h : (core.get f s n).result with
    | ok v => exact absurd (by simp [implementation.UserGet, h]) hne
    | error e =>
      refine ⟨e, ?_⟩
      rw [transportLog_UserGet, h]

/-- Witness for C8 (amended) at a concrete input: a Create that fails
on a storage timeout writes exactly one boundary record with the
operation and subject name. -/
theorem C8_witness :
    ∃ e, transportLog
        (implementation.UserCreate ⟨some Err.timeout, none, none, none, none⟩ [] "a" "p").log =
      [LogRec.transport "create" "a" e] :=
  (C8_failure_logged_once_amended ⟨some Err.timeout, none, none, none, none⟩ [] "a" "p").1
    (by decide)

/-- C3 counterexample: when the storage list call fails with an
unclassified error, the transport List operation returns a success
response with an empty user list instead of the internal status — a
failure silently converted into a success. -/
theorem C3_counterexample_list_swallows :
    repo.UserList ⟨none, none, none, none, some (Err.other "boom")⟩ [] true 0 0 =
      .error (Err.other "boom") ∧
    (implementation.UserList ⟨none, none, none, none, some (Err.other "boom")⟩ []).code =
      Code.ok ∧
    (implementation.UserList ⟨none, none, none, none, some (Err.other "boom")⟩ []).resp =
      some [] :=
  ⟨rfl, rfl, rfl⟩

/-- C3 (amended): for Create, Update, Delete and Get, every domain
error that is not Validation, AlreadyExists, NotFound or Timeout (i.e.
the unclassified class) maps to the internal status; List, however,
checks only Timeout and silently converts any other failure into a
success response carrying an empty user list. -/
theorem C3_internal_mapping_amended (f : Faults) (s : List User) (n p m : String) :
    ((core.create f s ⟨n, p⟩).result = .error (Err.other m) →
      (implementation.UserCreate f s n p).code = Code.internal) ∧
    ((core.update f s ⟨n, p⟩).result = .error (Err.other m) →
      (implementation.UserUpdate f s n p).code = Code.internal) ∧
    ((core.delete f s n).result = .error (Err.other m) →
      (implementation.UserDelete f s n).code = Code.internal) ∧
    ((core.get f s n).result = .error (Err.other m) →
      (implementation.UserGet f s n).code = Code.internal) ∧
    (∀ e, (core.list f s true 0 0).result = .error e → e ≠ Err.timeout →
      (implementation.UserList f s).code = Code.ok ∧
      (implementation.UserList f s).resp = some []) := by
  refine ⟨?_, ?_, ?_, ?_, ?_⟩
  · intro h
    simp [implementation.UserCreate, h]
  · intro h
    simp [implementation.UserUpdate, h]
  · intro h
    simp [implementation.UserDelete, h]
  · intro h
    simp [implementation.UserGet, h]
  · intro e h hne
    cases e <;> simp [implementation.UserList, h] at hne ⊢

/-- Witness for C3 (amended) at a concrete input: a storage create
failing with an unclassified error surfaces as the internal status. -/
theorem C3_witness :
    (implementation.UserCreate ⟨none, some (Err.other "x"), none, none, none⟩ [] "a" "p").code =
      Code.internal :=
  (C3_internal_mapping_amended ⟨none, some (Err.other "x"), none, none, none⟩ [] "a" "p" "x").1 rfl

lemma map_upd_id_of_none {s : List User} {n : String}
    (h : findUser s n = none) (w : User) :
    (s.map fun v => if v.name == n then w else v) = s := by
  induction s with
  | nil => rfl
  | cons v vs ih =>
    rw [findUser_cons] at h
    by_cases hb : (v.name == n) = true
    · simp [hb] at h
    · rw [if_neg hb] at h
      rw [List.map_cons, if_neg hb, ih h]

lemma namesOf_map_upd (s : List User) (n : String) (w : User) (hw : w.name = n) :
    namesOf (s.map fun v => if v.name == n then w else v) = namesOf s := by
  induction s with
  | nil => rfl
  | cons v vs ih =>
    have h1 : (if (v.name == n) = true then w else v).name = v.name := by
      by_cases hb : (v.name == n) = true
      · rw [if_pos hb, hw]
        simp only [beq_iff_eq] at hb
        exact hb.symm
      · rw [if_neg hb]
    simp only [namesOf, List.map_cons] at ih ⊢
    rw [h1, ih]

lemma create_store_noFaults (s : List User) (u : User) :
    (core.create noFaults s u).store = s ∨
    ((core.create noFaults s u).store = s ++ [u] ∧ findUser s u.name = none) := by
  cases hf : findUser s u.name with
  | some v =>
    left
    simp [core.create, repo.UserGet, noFaults, hf]
  | none =>
    right
    exact ⟨by simp [core.create, repo.UserCreate, repo.UserGet, noFaults, hf], rfl⟩

lemma update_store_noFaults (s : List User) (u : User) :
    (core.update noFaults s u).store = s ∨
    (core.update noFaults s u).store = (s.map fun v => if v.name == u.name then u else v) := by
  cases hf : findUser s u.name with
  | none =>
    left
    simp [core.update, repo.UserGet, noFaults, hf]
  | some v =>
    right
    simp [core.update, repo.UserGet, repo.UserUpdate, noFaults, hf]

lemma delete_store_noFaults (s : List User) (n : String) :
    (core.delete noFaults s n).store = s ∨
    (core.delete noFaults s n).store = (s.filter fun v => !(v.name == n)) := by
  cases hf : findUser s n with
  | none =>
    left
    simp [core.delete, repo.UserGet, noFaults, hf]
  | some v =>
    right
    simp [core.delete, repo.UserGet, repo.UserDelete, noFaults, hf]

lemma nodup_append_singleton {s : List User} {u : User}
    (h : (namesOf s).Nodup) (hn : u.name ∉ namesOf s) :
    (namesOf (s ++ [u])).Nodup := by
  unfold namesOf at *
  rw [List.map_append]
  rw [List.nodup_append]
  refine ⟨h, List.nodup_singleton _, ?_⟩
  intro a ha hb
  simp at hb
  subst hb
  exact hn ha

lemma nodup_filter_names (s : List User) (q : User → Bool)
    (h : (namesOf s).Nodup) : (namesOf (s.filter q)).Nodup := by
  unfold namesOf at *
  exact List.Nodup.sublist ((List.filter_sublist s).map fun u => u.name) h

lemma nodup_applyOp (s : List User) (o : Op) (h : (namesOf s).Nodup) :
    (namesOf (applyOp s o)).Nodup := by
  cases o with
  | createOp u =>
    simp only [applyOp]
    rcases create_store_noFaults s u with hs | ⟨hs, hf⟩
    · rw [hs]; exact h
    · rw [hs]
      exact nodup_append_singleton h (not_mem_namesOf_of_findUser_none hf)
  | updateOp u =>
    simp only [applyOp]
    rcases update_store_noFaults s u with hs | hs
    · rw [hs]; exact h
    · rw [hs, namesOf_map_upd s u.name u rfl]; exact h
  | deleteOp n =>
    simp only [applyOp]
    rcases delete_store_noFaults s n with hs | hs
    · rw [hs]; exact h
    · rw [hs]; exact nodup_filter_names s _ h
  | getOp n => exact h
  | listOp => exact h

lemma nodup_runOps (ops : List Op) :
    ∀ s : List User, (namesOf s).Nodup → (namesOf (runOps s ops)).Nodup := by
  induction ops with
  | nil => intro s h; exact h
  | cons o os ih => intro s h; exact ih _ (nodup_applyOp s o h)

/-- C5: from a state with no record for `n`, Create(n, p1) succeeds and
appends the record, a second Create(n, p2) fails with `AlreadyExists`
and leaves the storage with exactly the first record; and a functioning
storage holds at most one record per name after any sequence of domain
operations (name uniqueness is preserved). -/
theorem C5_create_reject_and_uniqueness (s : List User) (n p1 p2 : String)
    (h : findUser s n = none) :
    (core.create noFaults s ⟨n, p1⟩).result = .ok () ∧
    (core.create noFaults s ⟨n, p1⟩).store = s ++ [⟨n, p1⟩] ∧
    (core.create noFaults (s ++ [⟨n, p1⟩]) ⟨n, p2⟩).result = .error Err.alreadyExists ∧
    (core.create noFaults (s ++ [⟨n, p1⟩]) ⟨n, p2⟩).store = s ++ [⟨n, p1⟩] ∧
    (∀ (t : List User) (ops : List Op),
      (namesOf t).Nodup → (namesOf (runOps t ops)).Nodup) := by
  have h2 : findUser (s ++ [⟨n, p1⟩]) n = some ⟨n, p1⟩ := by
    rw [findUser_append_of_none h]
    simp [findUser]
  refine ⟨?_, ?_, ?_, ?_, fun t ops ht => nodup_runOps ops t ht⟩
  · simp [core.create, repo.UserGet, repo.UserCreate, noFaults, h]
  · simp [core.create, repo.UserGet, repo.UserCreate, noFaults, h]
  · simp [core.create, repo.UserGet, noFaults, h2]
  · simp [core.create, repo.UserGet, noFaults, h2]

/-- Witness for C5 at a concrete input: on empty storage the first
Create succeeds, the second is rejected, and uniqueness holds after the
operation sequence. -/
theorem C5_witness :
    (core.create noFaults [] ⟨"a", "p"⟩).result = .ok () ∧
    (core.create noFaults ([] ++ [⟨"a", "p"⟩]) ⟨"a", "q"⟩).result = .error Err.alreadyExists ∧
    (namesOf (runOps [] [Op.createOp ⟨"a", "p"⟩])).Nodup :=
  have hc := C5_create_reject_and_uniqueness [] "a" "p" "q" rfl
  ⟨hc.1, hc.2.2.1, hc.2.2.2.2 [] [Op.createOp ⟨"a", "p"⟩] List.nodup_nil⟩

/-- C6: for a name with no record, Update and Delete both fail with
`NotFound`; after Create(n, p) succeeds, Update(n, p1) succeeds and a
subsequent Get(n) returns the user with the updated password. -/
theorem C6_mutate_requires_existence (s : List User) (n p p1 : String)
    (h : findUser s n = none) :
    (core.update noFaults s ⟨n, p⟩).result = .error Err.notFound ∧
    (core.delete noFaults s n).result = .error Err.notFound ∧
    (core.create noFaults s ⟨n, p⟩).result = .ok () ∧
    (core.update noFaults (core.create noFaults s ⟨n, p⟩).store ⟨n, p1⟩).result = .ok () ∧
    (core.get noFaults
        (core.update noFaults (core.create noFaults s ⟨n, p⟩).store ⟨n, p1⟩).store n).result =
      .ok ⟨n, p1⟩ := by
  have hstore : (core.create noFaults s ⟨n, p⟩).store = s ++ [⟨n, p⟩] := by
    simp [core.create, repo.UserGet, repo.UserCreate, noFaults, h]
  have h2 : findUser (s ++ [⟨n, p⟩]) n = some ⟨n, p⟩ := by
    rw [findUser_append_of_none h]
    simp [findUser]
  have hupd : (core.update noFaults (s ++ [⟨n, p⟩]) ⟨n, p1⟩).store = s ++ [⟨n, p1⟩] := by
    simp only [core.update, repo.UserGet, repo.UserUpdate, noFaults, h2]
    rw [List.map_append, map_upd_id_of_none h]
    simp
  refine ⟨?_, ?_, ?_, ?_, ?_⟩
  · simp [core.update, repo.UserGet, noFaults, h]
  · simp [core.delete, repo.UserGet, noFaults, h]
  · simp [core.create, repo.UserGet, repo.UserCreate, noFaults, h]
  · rw [hstore]
    simp [core.update, repo.UserGet, repo.UserUpdate, noFaults, h2]
  · rw [hstore, hupd]
    simp only [core.get, repo.UserGet, noFaults]
    rw [findUser_append_of_none h]
    simp [findUser]

/-- Witness for C6 at a concrete input: the whole scenario on empty
storage with name a, passwords p then q. -/
theorem C6_witness :
    (core.update noFaults [] ⟨"a", "p"⟩).result = .error Err.notFound ∧
    (core.delete noFaults [] "a").result = .error Err.notFound ∧
    (core.create noFaults [] ⟨"a", "p"⟩).result = .ok () ∧
    (core.update noFaults (core.create noFaults [] ⟨"a", "p"⟩).store ⟨"a", "q"⟩).result = .ok () ∧
    (core.get noFaults
        (core.update noFaults (core.create noFaults [] ⟨"a", "p"⟩).store ⟨"a", "q"⟩).store
        "a").result = .ok ⟨"a", "q"⟩ :=
  C6_mutate_requires_existence [] "a" "p" "q" rfl
